import Mathlib

/-!
Verification development for osm-tools, src/mountains/fix-peak-names-with-elevation.py.

The script scans OSM XML peak/hill nodes, detects names that embed an elevation
(e.g. "Storefjell 1200"), cross-checks the embedded elevation against a DTM
lookup service and, when consistent, rewrites the node tags.

Shallow embedding notes:
* Python floats are modelled as explicit fractions (structure PyFloat: integer
  numerator over natural denominator) so that all arithmetic the program
  performs is executable in the kernel; PyFloat.toRat gives the rational value
  and every comparison the program makes is related to the rational order by
  bridge lemmas.  A JSON number carries both its numeric value and its Python
  str() rendering (structure PyNum).
* Python strings are modelled as Lean strings / lists of characters.
* The two compiled regular expressions (source lines 15-16) are embedded by a
  backtracking matcher specialised to their shape: every sub-pattern is a
  character class under * or +, so each candidate split is enumerated in the
  greedy (longest-first) order in which the Python engine tries them, and the
  first full-string success wins, exactly as re.fullmatch does.
* The regex classes: [0-9] is ASCII digits; Python \s is modelled by its ASCII
  members (space, tab, newline, vertical tab, form feed, carriage return);
  the dot . matches any character except newline.
* Fallible behaviour (HTTP errors raised by get_elevation, TypeError from
  arithmetic on None, ValueError from float()) is modelled with Except.
-/

namespace OsmTools

/-! ## Character classes of the two patterns -/

/-- ASCII digit class [0-9] of the source patterns (lines 15-16). -/
def pyIsDigit (c : Char) : Bool := c.isDigit

/-- Python regex class \s, restricted to its ASCII members. -/
def pyIsSpace (c : Char) : Bool :=
  c == ' ' || c == '\t' || c == '\n' || c == '\x0b' || c == '\x0c' || c == '\r'

/-- Python regex dot: any character except newline (no DOTALL flag in source). -/
def pyIsDot (c : Char) : Bool := c != '\n'

/-! ## Greedy backtracking splits

A greedy character-class star p* anchored at the start of s can only match a
prefix of s.takeWhile p.  The Python engine tries the longest such prefix
first and backtracks one character at a time.  starSplitsAux enumerates the
candidate (matched, remaining) pairs in exactly that order; gRev is the
currently matched prefix, reversed. -/

def starSplitsAux (gRev : List Char) (rest : List Char) :
    List (List Char × List Char) :=
  match gRev with
  | [] => [([], rest)]
  | c :: g => (gRev.reverse, rest) :: starSplitsAux g (c :: rest)

/-- Candidate splits for greedy p* at the head of s, longest match first. -/
def starSplits (p : Char → Bool) (s : List Char) :
    List (List Char × List Char) :=
  starSplitsAux (s.takeWhile p).reverse (s.dropWhile p)

/-- Candidate splits for greedy p+ (as p* but the match must be nonempty). -/
def plusSplits (p : Char → Bool) (s : List Char) :
    List (List Char × List Char) :=
  (starSplits p s).filter (fun pr => !pr.1.isEmpty)

/-! ## The two compiled patterns (source lines 15-16)

name_with_elevation_pattern = re.compile(r"([^0-9]*)\s+([0-9]+)(.*)")
only_elevation_pattern      = re.compile(r"([0-9]+)\s*(.*)")

both used with .fullmatch, so the trailing remainder must be empty. -/

/-- Stage 4 of the first pattern: the final (.*) group; the fullmatch then
requires an empty unconsumed remainder. -/
def nwefStage4 (g1 g2 : List Char) (g3s : List Char × List Char) :
    Option (List Char × List Char × List Char) :=
  if g3s.2.isEmpty then some (g1, g2, g3s.1) else none

/-- Stage 3 of the first pattern: the ([0-9]+) group, then stage 4. -/
def nwefStage3 (g1 : List Char) (g2s : List Char × List Char) :
    Option (List Char × List Char × List Char) :=
  (starSplits pyIsDot g2s.2).findSome? (nwefStage4 g1 g2s.1)

/-- Stage 2 of the first pattern: after \s+ has matched, match ([0-9]+). -/
def nwefStage2 (g1 : List Char) (ws : List Char × List Char) :
    Option (List Char × List Char × List Char) :=
  (plusSplits pyIsDigit ws.2).findSome? (nwefStage3 g1)

/-- Stage 1 of the first pattern: after ([^0-9]*) has matched, match \s+. -/
def nwefStage1 (g1s : List Char × List Char) :
    Option (List Char × List Char × List Char) :=
  (plusSplits pyIsSpace g1s.2).findSome? (nwefStage2 g1s.1)

/-- Fullmatch of ([^0-9]*)\s+([0-9]+)(.*) returning (group1, group2, group3). -/
def name_with_elevation_fullmatch (s : List Char) :
    Option (List Char × List Char × List Char) :=
  (starSplits (fun c => !pyIsDigit c) s).findSome? nwefStage1

/-- Stage 3 of the second pattern: the final (.*) group. -/
def oefStage3 (g1 : List Char) (g2s : List Char × List Char) :
    Option (List Char × List Char) :=
  if g2s.2.isEmpty then some (g1, g2s.1) else none

/-- Stage 2 of the second pattern: after \s* has matched, match (.*). -/
def oefStage2 (g1 : List Char) (ws : List Char × List Char) :
    Option (List Char × List Char) :=
  (starSplits pyIsDot ws.2).findSome? (oefStage3 g1)

/-- Stage 1 of the second pattern: after ([0-9]+) has matched, match \s*. -/
def oefStage1 (g1s : List Char × List Char) :
    Option (List Char × List Char) :=
  (starSplits pyIsSpace g1s.2).findSome? (oefStage2 g1s.1)

/-- Fullmatch of ([0-9]+)\s*(.*) returning (group1, group2). -/
def only_elevation_fullmatch (s : List Char) :
    Option (List Char × List Char) :=
  (plusSplits pyIsDigit s).findSome? oefStage1

/-- Name classification, source lines 143-155: try the first pattern, then the
second; a second-pattern match has name_without_ele = "".  Returns
(name_without_ele, ele, rest) or none (node skipped, line 151). -/
def classify (name : List Char) : Option (List Char × List Char × List Char) :=
  match name_with_elevation_fullmatch name with
  | some m => some m
  | none =>
    match only_elevation_fullmatch name with
    | some m => some ([], m.1, m.2)
    | none => none

/-! ## Python float values

A Python float value is a (dyadic) rational; PyFloat represents such values as
explicit fractions with executable arithmetic.  Every PyFloat built by this
program has a positive denominator; lemmas that translate comparisons to the
rational order take that positivity as a hypothesis. -/

structure PyFloat where
  num : Int
  den : Nat
deriving DecidableEq

/-- Rational value of a PyFloat. -/
def PyFloat.toRat (a : PyFloat) : ℚ := (a.num : ℚ) / (a.den : ℚ)

/-- Exact float subtraction (cross multiplication, no normalisation). -/
def PyFloat.sub (a b : PyFloat) : PyFloat :=
  ⟨a.num * (b.den : Int) - b.num * (a.den : Int), a.den * b.den⟩

/-- Python abs() on a float value. -/
def PyFloat.fabs (a : PyFloat) : PyFloat := ⟨|a.num|, a.den⟩

/-- Comparison a > n against an integer constant (cross multiplication;
faithful for positive denominators). -/
def PyFloat.gtInt (a : PyFloat) (n : Int) : Bool :=
  decide (n * (a.den : Int) < a.num)

/-! ## Python float() on strings

Model of the float() calls at source lines 166 and 170.  Covers the decimal
grammar: optional surrounding whitespace, optional sign, digits with optional
fractional part, optional exponent.  (Python additionally accepts inf/nan
spellings and digit-group underscores; the strings this program feeds to
float() are regex digit groups and ele tag values, for which the decimal
grammar is the relevant fragment.)  Returns none where float() raises
ValueError. -/

def digitsToNat (ds : List Char) : Nat :=
  ds.foldl (fun a c => 10 * a + (c.toNat - 48)) 0

def stripPyWs (s : List Char) : List Char :=
  ((s.dropWhile pyIsSpace).reverse.dropWhile pyIsSpace).reverse

def parseFloatCore (cs : List Char) : Option PyFloat :=
  let neg := cs.head? == some '-'
  let cs1 := if cs.head? == some '-' || cs.head? == some '+' then cs.tail else cs
  let ip := cs1.takeWhile pyIsDigit
  let r1 := cs1.dropWhile pyIsDigit
  let fp := if r1.head? == some '.' then r1.tail.takeWhile pyIsDigit else []
  let r2 := if r1.head? == some '.' then r1.tail.dropWhile pyIsDigit else r1
  if ip.isEmpty && fp.isEmpty then none
  else
    let mantNum : Int := (digitsToNat ip : Int) * (10 : Int) ^ fp.length + (digitsToNat fp : Int)
    let num : Int := if neg then -mantNum else mantNum
    let den : Nat := 10 ^ fp.length
    match r2 with
    | [] => some ⟨num, den⟩
    | e :: t =>
      if e == 'e' || e == 'E' then
        let eneg := t.head? == some '-'
        let t1 := if t.head? == some '-' || t.head? == some '+' then t.tail else t
        let ed := t1.takeWhile pyIsDigit
        if ed.isEmpty || !(t1.dropWhile pyIsDigit).isEmpty then none
        else if eneg then some ⟨num, den * 10 ^ digitsToNat ed⟩
        else some ⟨num * (10 : Int) ^ digitsToNat ed, den⟩
      else none

def parseFloat (s : String) : Option PyFloat := parseFloatCore (stripPyWs s.toList)

/-! ## Data model -/

/-- An OSM tag element: a k attribute and a v attribute. -/
structure Tag where
  k : String
  v : String
deriving DecidableEq

/-- A node element: coordinate (lon, lat as in get_coord, lines 82-84) and its
child tag elements in document order.  (Child elements that are not tag
elements are skipped by the source at line 124 and omitted here.) -/
structure OsmNode where
  lon : PyFloat
  lat : PyFloat
  tags : List Tag
deriving DecidableEq

/-- A JSON number as Python sees it: its numeric value and its str() rendering
(used by mk_tag_element when the value is int or float). -/
structure PyNum where
  val : PyFloat
  repr : String
deriving DecidableEq

/-- The logger.warning calls of main (lines 160, 167, 171), recording which
warning fired and the offending name. -/
inductive LogEvent where
  | warnSkipRest (name : String)
  | warnSkipDtm (name : String)
  | warnSkipExisting (name : String)
deriving DecidableEq

/-- Exceptions that abort the run: the HTTPError re-raised at line 51, the
TypeError from abs(None - float(...)) at line 166, and the ValueError from a
failing float() call. -/
inductive RunError where
  | httpError
  | typeErrorNoneSub
  | valueErrorParse (s : String)
deriving DecidableEq

/-- mk_tag_element (source lines 87-93); int/float values arrive here already
rendered by str(), see PyNum.repr. -/
def mk_tag_element (name : String) (value : String) : Tag :=
  { k := name, v := value }

/-- The DTM elevation lookup collaborator (get_elevation, lines 19-79), seen
from main: per coordinate it either raises (transport failure, modelled as
.error) or yields an elevation, None when no tier had data (line 67). -/
abbrev Lookup : Type := PyFloat × PyFloat → Except Unit (Option PyNum)

/-! ## Tag scanning (source lines 119-132)

The loop assigns name_tag / ele_tag / natural_tag on every matching child, so
the binding that survives is the last tag with that key. -/

def scanTagsAux (i : Nat) (acc : Option Nat × Option Nat × Option Nat) :
    List Tag → Option Nat × Option Nat × Option Nat
  | [] => acc
  | t :: ts =>
    scanTagsAux (i + 1)
      (if t.k = "name" then some i else acc.1,
       if t.k = "ele" then some i else acc.2.1,
       if t.k = "natural" then some i else acc.2.2) ts

/-- Indices of the selected name, ele and natural tags of a node. -/
def scanTags (tags : List Tag) : Option Nat × Option Nat × Option Nat :=
  scanTagsAux 0 (none, none, none) tags

/-- Index of the last tag with the given key, if any. -/
def lastIdxOf (key : String) : List Tag → Option Nat
  | [] => none
  | t :: ts =>
    match lastIdxOf key ts with
    | some i => some (i + 1)
    | none => if t.k = key then some 0 else none

/-- Modelled from the spec: first-seen tag selection, the semantics the spec
ascribes to duplicate name / ele / natural keys ("treated as unique by
first-seen semantics").  The source has no such function; this definition
exists to compare the spec reading against the code. -/
def firstIdxOf (key : String) (tags : List Tag) : Option Nat :=
  tags.findIdx? (fun t => t.k == key)

/-- Value of the tag at an index (tag v attributes are always present here). -/
def tagValAt (tags : List Tag) (i : Nat) : String :=
  match tags.get? i with
  | some t => t.v
  | none => ""

/-- Candidate filter of lines 134-135: a natural tag whose value is peak or
hill must have been selected. -/
def naturalOk (node : OsmNode) : Bool :=
  match (scanTags node.tags).2.2 with
  | none => false
  | some i => tagValAt node.tags i == "peak" || tagValAt node.tags i == "hill"

/-- The selected name tag value, if a name tag was seen (lines 137-140). -/
def nodeName? (node : OsmNode) : Option String :=
  match (scanTags node.tags).1 with
  | none => none
  | some i => some (tagValAt node.tags i)

/-- existing_ele of line 157: the selected ele tag value, "" when absent. -/
def existingEleStr (node : OsmNode) : String :=
  match (scanTags node.tags).2.1 with
  | some i => tagValAt node.tags i
  | none => ""

/-! ## The rewrite (source lines 174-178) -/

/-- The four tag elements appended on acceptance, in order. -/
def appendedTags (ele : List Char) (origName : String) (dmt : PyNum) : List Tag :=
  [mk_tag_element "ele" (String.mk ele),
   mk_tag_element "NOTE" "fixed name with elevation",
   mk_tag_element "name:original" origName,
   mk_tag_element "ele:kartverket-dmt" dmt.repr]

/-- Accepted correction: set the selected name tag value to name_without_ele
and append the four new tags. -/
def rewriteNode (node : OsmNode) (nameIdx : Nat) (np ele : List Char)
    (origName : String) (dmt : PyNum) : OsmNode :=
  { node with
    tags := node.tags.set nameIdx { k := "name", v := String.mk np }
      ++ appendedTags ele origName dmt }

/-! ## Per-node processing (the body of the loop of main, lines 119-178) -/

def processNode (lookup : Lookup) (node : OsmNode) :
    Except RunError (OsmNode × List LogEvent) :=
  if !naturalOk node then .ok (node, [])
  else
    match (scanTags node.tags).1 with
    | none => .ok (node, [])
    | some nameIdx =>
      let name := tagValAt node.tags nameIdx
      match classify name.toList with
      | none => .ok (node, [])
      | some m =>
        let existing_ele := existingEleStr node
        if !m.2.2.isEmpty then .ok (node, [.warnSkipRest name])
        else
          match lookup (node.lon, node.lat) with
          | .error _ => .error .httpError
          | .ok dmtEle? =>
            match parseFloat (String.mk m.2.1) with
            | none => .error (.valueErrorParse (String.mk m.2.1))
            | some claimed =>
              match dmtEle? with
              | none => .error .typeErrorNoneSub
              | some z =>
                if ((z.val.sub claimed).fabs).gtInt 20 then
                  .ok (node, [.warnSkipDtm name])
                else if existing_ele ≠ "" then
                  match parseFloat existing_ele with
                  | none => .error (.valueErrorParse existing_ele)
                  | some ex =>
                    if ((claimed.sub ex).fabs).gtInt 10 then
                      .ok (node, [.warnSkipExisting name])
                    else .ok (rewriteNode node nameIdx m.1 m.2.1 name z, [])
                else .ok (rewriteNode node nameIdx m.1 m.2.1 name z, [])

/-- Whether processing accepted the correction (observable as the node having
been rewritten). -/
def acceptsNode (lookup : Lookup) (node : OsmNode) : Bool :=
  match processNode lookup node with
  | .ok (r, _) => decide (r ≠ node)
  | _ => false

/-- The whole run (the loop of main plus final serialisation): nodes processed
in document order, the first uncaught exception aborting the run so that
nothing is printed. -/
def runMain (lookup : Lookup) :
    List OsmNode → Except RunError (List OsmNode × List LogEvent)
  | [] => .ok ([], [])
  | n :: ns =>
    match processNode lookup n with
    | .error e => .error e
    | .ok nl =>
      match runMain lookup ns with
      | .error e => .error e
      | .ok nsl => .ok (nl.1 :: nsl.1, nl.2 ++ nsl.2)

end OsmTools


namespace OsmTools

def okLookup (q : PyNum) : Lookup := fun _ => .ok (some q)
def noneLookup : Lookup := fun _ => .ok none
def failLookup : Lookup := fun _ => .error ()

def storefjellNode : OsmNode :=
  ⟨⟨10, 1⟩, ⟨60, 1⟩,
   [{ k := "natural", v := "peak" }, { k := "name", v := "Storefjell 1200" }]⟩

/-- Whether the node is a candidate at all: natural peak/hill, a name tag, and
a name matching one of the two patterns. -/
def isCandidate (node : OsmNode) : Bool :=
  naturalOk node &&
    (match (scanTags node.tags).1 with
     | none => false
     | some i => (classify (tagValAt node.tags i).toList).isSome)

/-! ## Demo inputs used by witnesses and counterexamples -/

/-- A node without a natural tag: never a candidate. -/
def plainNode : OsmNode := ⟨⟨1, 1⟩, ⟨2, 1⟩, [{ k := "name", v := "Hill" }]⟩

/-- A peak whose name has a trailing qualifier after the digits. -/
def restNode : OsmNode :=
  ⟨⟨10, 1⟩, ⟨60, 1⟩,
   [{ k := "natural", v := "peak" }, { k := "name", v := "Abc 12 (x)" }]⟩

/-- A peak with an existing ele tag 90 and claimed elevation 100. -/
def boundaryNode : OsmNode :=
  ⟨⟨10, 1⟩, ⟨60, 1⟩,
   [{ k := "natural", v := "peak" }, { k := "name", v := "Abc 100" },
    { k := "ele", v := "90" }]⟩

/-- As boundaryNode but the existing ele differs from the claim by 11. -/
def boundaryNodeC : OsmNode :=
  ⟨⟨10, 1⟩, ⟨60, 1⟩,
   [{ k := "natural", v := "peak" }, { k := "name", v := "Abc 100" },
    { k := "ele", v := "89" }]⟩

/-- A peak whose existing ele tag value 12m does not parse as a number. -/
def badEleNode : OsmNode :=
  ⟨⟨10, 1⟩, ⟨60, 1⟩,
   [{ k := "natural", v := "peak" }, { k := "ele", v := "12m" },
    { k := "name", v := "Abc 100" }]⟩

/-- A peak with two name tags: the first matches a pattern, the last does not. -/
def dupNameNode : OsmNode :=
  ⟨⟨10, 1⟩, ⟨60, 1⟩,
   [{ k := "natural", v := "peak" }, { k := "name", v := "Abc 100" },
    { k := "name", v := "nodigits" }]⟩

/-- dupNameNode with only its first name tag. -/
def singleNameNode : OsmNode :=
  ⟨⟨10, 1⟩, ⟨60, 1⟩,
   [{ k := "natural", v := "peak" }, { k := "name", v := "Abc 100" }]⟩

/-- The Storefjell node after the accepted correction. -/
def storefjellRewritten : OsmNode :=
  ⟨⟨10, 1⟩, ⟨60, 1⟩,
   [{ k := "natural", v := "peak" }, { k := "name", v := "Storefjell" },
    { k := "ele", v := "1200" },
    { k := "NOTE", v := "fixed name with elevation" },
    { k := "name:original", v := "Storefjell 1200" },
    { k := "ele:kartverket-dmt", v := "1195" }]⟩


end OsmTools

namespace OsmTools

/-! ## Facts about the character classes -/

lemma space_not_digit {c : Char} (h : pyIsSpace c = true) : pyIsDigit c = false := by
  simp only [pyIsSpace, Bool.or_eq_true, beq_iff_eq] at h
  rcases h with ((((h | h) | h) | h) | h) | h <;> subst h <;> decide

lemma digit_not_space {c : Char} (h : pyIsDigit c = true) : pyIsSpace c = false := by
  cases hs : pyIsSpace c
  · rfl
  · rw [space_not_digit hs] at h
    exact absurd h (by simp)

/-! ## Facts about the split enumerations -/

lemma mem_starSplitsAux {pr : List Char × List Char} {gRev rest : List Char}
    (h : pr ∈ starSplitsAux gRev rest) : pr.1 ++ pr.2 = gRev.reverse ++ rest := by
  induction gRev generalizing rest with
  | nil =>
    simp only [starSplitsAux, List.mem_singleton] at h
    simp [h]
  | cons c g ih =>
    simp only [starSplitsAux, List.mem_cons] at h
    rcases h with h | h
    · simp [h]
    · have h2 := ih h
      simpa [List.append_assoc] using h2

lemma all_of_mem_starSplitsAux {p : Char → Bool} {pr : List Char × List Char}
    {gRev rest : List Char} (hall : gRev.all p = true)
    (h : pr ∈ starSplitsAux gRev rest) : pr.1.all p = true := by
  induction gRev generalizing rest with
  | nil =>
    simp only [starSplitsAux, List.mem_singleton] at h
    simp [h]
  | cons c g ih =>
    simp only [starSplitsAux, List.mem_cons] at h
    simp only [List.all_cons, Bool.and_eq_true] at hall
    rcases h with h | h
    · subst h
      simp only [List.all_reverse, List.all_cons, Bool.and_eq_true]
      exact hall
    · exact ih hall.2 h

lemma all_takeWhile_self {p : Char → Bool} {s : List Char} :
    (s.takeWhile p).all p = true := by
  induction s with
  | nil => rfl
  | cons c t ih =>
    rw [List.takeWhile_cons]
    cases hc : p c
    · rfl
    · simp [hc, ih]

lemma mem_starSplits {p : Char → Bool} {pr : List Char × List Char} {s : List Char}
    (h : pr ∈ starSplits p s) : pr.1 ++ pr.2 = s ∧ pr.1.all p = true := by
  unfold starSplits at h
  refine ⟨?_, ?_⟩
  · have h2 := mem_starSplitsAux h
    rwa [List.reverse_reverse, List.takeWhile_append_dropWhile] at h2
  · exact all_of_mem_starSplitsAux (by rw [List.all_reverse]; exact all_takeWhile_self) h

lemma mem_plusSplits {p : Char → Bool} {pr : List Char × List Char} {s : List Char}
    (h : pr ∈ plusSplits p s) :
    pr.1 ++ pr.2 = s ∧ pr.1.all p = true ∧ pr.1 ≠ [] := by
  unfold plusSplits at h
  rw [List.mem_filter] at h
  have h2 := mem_starSplits h.1
  refine ⟨h2.1, h2.2, ?_⟩
  have h3 := h.2
  simpa [List.isEmpty_iff] using h3

lemma takeWhile_eq_nil_of_all_not {p : Char → Bool} {s : List Char}
    (h : s.all (fun c => !p c) = true) : s.takeWhile p = [] := by
  cases s with
  | nil => rfl
  | cons c t =>
    simp only [List.all_cons, Bool.and_eq_true, Bool.not_eq_true'] at h
    simp [List.takeWhile_cons, h.1]

lemma plusSplits_eq_nil_of_all_not {p : Char → Bool} {s : List Char}
    (h : s.all (fun c => !p c) = true) : plusSplits p s = [] := by
  unfold plusSplits starSplits
  rw [takeWhile_eq_nil_of_all_not h]
  rfl

lemma plusSplits_cons_eq_nil {p : Char → Bool} {c : Char} {t : List Char}
    (h : p c = false) : plusSplits p (c :: t) = [] := by
  unfold plusSplits starSplits
  rw [List.takeWhile_cons_of_neg (by simp [h])]
  rfl

end OsmTools

namespace OsmTools

lemma takeWhile_eq_self_of_all {p : Char → Bool} {s : List Char}
    (h : s.all p = true) : s.takeWhile p = s := by
  induction s with
  | nil => rfl
  | cons c t ih =>
    simp only [List.all_cons, Bool.and_eq_true] at h
    rw [List.takeWhile_cons_of_pos h.1, ih h.2]

lemma dropWhile_eq_nil_of_all {p : Char → Bool} {s : List Char}
    (h : s.all p = true) : s.dropWhile p = [] := by
  induction s with
  | nil => rfl
  | cons c t ih =>
    simp only [List.all_cons, Bool.and_eq_true] at h
    rw [List.dropWhile_cons_of_pos h.1]
    exact ih h.2

/-- Head of the candidate enumeration is always the current greedy split. -/
lemma findSome?_starSplitsAux_head {β : Type} {f : List Char × List Char → Option β}
    {gRev rest : List Char} {b : β}
    (h : f (gRev.reverse, rest) = some b) :
    (starSplitsAux gRev rest).findSome? f = some b := by
  cases gRev with
  | nil =>
    simp only [List.reverse_nil] at h
    simp [starSplitsAux, List.findSome?_cons, h]
  | cons c g =>
    simp only [List.reverse_cons] at h
    simp [starSplitsAux, List.findSome?_cons, h]

/-- Backtracking step: if the current greedy split fails, try one shorter. -/
lemma findSome?_starSplitsAux_skip {β : Type} {f : List Char × List Char → Option β}
    {g : List Char} {c : Char} {rest : List Char}
    (h : f ((c :: g).reverse, rest) = none) :
    (starSplitsAux (c :: g) rest).findSome? f =
      (starSplitsAux g (c :: rest)).findSome? f := by
  simp only [List.reverse_cons] at h
  simp [starSplitsAux, List.findSome?_cons, h]

/-- A p+ whose first character matches and whose continuation cannot extend
has exactly one candidate split. -/
lemma plusSplits_one {p : Char → Bool} {c : Char} {t : List Char}
    (hc : p c = true) (ht : t.takeWhile p = []) :
    plusSplits p (c :: t) = [([c], t)] := by
  have hd : t.dropWhile p = t := by
    cases t with
    | nil => rfl
    | cons x xs =>
      rw [List.takeWhile_cons] at ht
      cases hx : p x
      · exact List.dropWhile_cons_of_neg (by simp [hx])
      · rw [hx] at ht
        simp at ht
  unfold plusSplits starSplits
  rw [List.takeWhile_cons_of_pos hc, ht, List.dropWhile_cons_of_pos hc, hd]
  rfl

/-- When the whole (nonempty) input matches p, the first p+ candidate consumes
everything; if the continuation succeeds there, the search succeeds. -/
lemma findSome?_plusSplits_all {β : Type} {p : Char → Bool}
    {f : List Char × List Char → Option β} {c : Char} {t : List Char} {b : β}
    (hall : (c :: t).all p = true)
    (h : f (c :: t, []) = some b) :
    (plusSplits p (c :: t)).findSome? f = some b := by
  unfold plusSplits starSplits
  rw [takeWhile_eq_self_of_all hall, dropWhile_eq_nil_of_all hall]
  cases hrev : (c :: t).reverse with
  | nil => simp at hrev
  | cons x xs =>
    have hx : (x :: xs).reverse = c :: t := by
      rw [← hrev, List.reverse_reverse]
    simp only [starSplitsAux]
    rw [hx]
    rw [List.filter_cons_of_pos (by simp)]
    simp [List.findSome?_cons, h]

end OsmTools

namespace OsmTools

/-- A string without digits cannot match the first pattern: the ([0-9]+) group
finds no candidate anywhere. -/
lemma nwef_eq_none_of_nodigit {s : List Char}
    (h : s.all (fun c => !pyIsDigit c) = true) :
    name_with_elevation_fullmatch s = none := by
  unfold name_with_elevation_fullmatch
  rw [List.findSome?_eq_none_iff]
  intro g1s hg1
  unfold nwefStage1
  rw [List.findSome?_eq_none_iff]
  intro ws hws
  unfold nwefStage2
  have hs1 : g1s.2.all (fun c => !pyIsDigit c) = true := by
    have h1 := (mem_starSplits hg1).1
    rw [← h1, List.all_append, Bool.and_eq_true] at h
    exact h.2
  have hs2 : ws.2.all (fun c => !pyIsDigit c) = true := by
    have h2 := (mem_plusSplits hws).1
    rw [← h2, List.all_append, Bool.and_eq_true] at hs1
    exact hs1.2
  rw [plusSplits_eq_nil_of_all_not hs2]
  rfl

/-- A string without digits cannot match the second pattern either. -/
lemma oef_eq_none_of_nodigit {s : List Char}
    (h : s.all (fun c => !pyIsDigit c) = true) :
    only_elevation_fullmatch s = none := by
  unfold only_elevation_fullmatch
  rw [plusSplits_eq_nil_of_all_not h]
  rfl

/-- A digit-free name is classified by neither pattern. -/
lemma classify_eq_none_of_nodigit {s : List Char}
    (h : s.all (fun c => !pyIsDigit c) = true) : classify s = none := by
  unfold classify
  rw [nwef_eq_none_of_nodigit h, oef_eq_none_of_nodigit h]

/-- Soundness of a first-pattern match: group 1 is digit-free and group 2 is a
nonempty digit string. -/
lemma nwef_groups {s g1 g2 g3 : List Char}
    (h : name_with_elevation_fullmatch s = some (g1, g2, g3)) :
    g1.all (fun c => !pyIsDigit c) = true ∧ g2.all pyIsDigit = true ∧ g2 ≠ [] := by
  unfold name_with_elevation_fullmatch at h
  obtain ⟨g1s, hg1mem, h⟩ := List.exists_of_findSome?_eq_some h
  unfold nwefStage1 at h
  obtain ⟨ws, hwsmem, h⟩ := List.exists_of_findSome?_eq_some h
  unfold nwefStage2 at h
  obtain ⟨g2s, hg2mem, h⟩ := List.exists_of_findSome?_eq_some h
  unfold nwefStage3 at h
  obtain ⟨g3s, hg3mem, h⟩ := List.exists_of_findSome?_eq_some h
  unfold nwefStage4 at h
  split at h
  · simp only [Option.some.injEq, Prod.mk.injEq] at h
    obtain ⟨h1, h2, h3⟩ := h
    subst h1
    subst h2
    exact ⟨(mem_starSplits hg1mem).2, (mem_plusSplits hg2mem).2.1,
      (mem_plusSplits hg2mem).2.2⟩
  · exact absurd h (by simp)

/-- Soundness of a second-pattern match: group 1 is a nonempty digit string. -/
lemma oef_groups {s g1 g2 : List Char}
    (h : only_elevation_fullmatch s = some (g1, g2)) :
    g1.all pyIsDigit = true ∧ g1 ≠ [] := by
  unfold only_elevation_fullmatch at h
  obtain ⟨g1s, hg1mem, h⟩ := List.exists_of_findSome?_eq_some h
  unfold oefStage1 at h
  obtain ⟨ws, hwsmem, h⟩ := List.exists_of_findSome?_eq_some h
  unfold oefStage2 at h
  obtain ⟨g2s, hg2mem, h⟩ := List.exists_of_findSome?_eq_some h
  unfold oefStage3 at h
  split at h
  · simp only [Option.some.injEq, Prod.mk.injEq] at h
    obtain ⟨h1, h2⟩ := h
    subst h1
    exact ⟨(mem_plusSplits hg1mem).2.1, (mem_plusSplits hg1mem).2.2⟩
  · exact absurd h (by simp)

/-- The name_without_ele produced by the classifier never contains a digit. -/
lemma classify_namePart_nodigit {s np e r : List Char}
    (h : classify s = some (np, e, r)) :
    np.all (fun c => !pyIsDigit c) = true := by
  unfold classify at h
  cases hm : name_with_elevation_fullmatch s with
  | some m =>
    rw [hm] at h
    simp only [Option.some.injEq] at h
    subst h
    exact (nwef_groups hm).1
  | none =>
    rw [hm] at h
    cases ho : only_elevation_fullmatch s with
    | some m2 =>
      rw [ho] at h
      simp only [Option.some.injEq, Prod.mk.injEq] at h
      rw [← h.1]
      rfl
    | none =>
      rw [ho] at h
      exact absurd h (by simp)

end OsmTools

namespace OsmTools

/-- Closed form of the first pattern on a name shaped prefix-whitespace-digits:
the greedy engine hands group 1 everything before the LAST whitespace
character preceding the digit run (the ([^0-9]*) group also swallows
whitespace and backtracking releases exactly one character for \s+), group 2
the digit run, group 3 the empty remainder. -/
lemma nwef_closed {p w d : List Char}
    (hp : p.all (fun c => !pyIsDigit c) = true)
    (hw : w ≠ []) (hwall : w.all pyIsSpace = true)
    (hd : d ≠ []) (hdall : d.all pyIsDigit = true) :
    name_with_elevation_fullmatch (p ++ w ++ d) = some (p ++ w.dropLast, d, []) := by
  obtain ⟨w0, wl, rfl⟩ : ∃ w0 wl, w = w0 ++ [wl] := by
    rcases List.eq_nil_or_concat w with h | ⟨w0, wl, h⟩
    · exact absurd h hw
    · exact ⟨w0, wl, by simpa [List.concat_eq_append] using h⟩
  obtain ⟨dh, dt, rfl⟩ : ∃ dh dt, d = dh :: dt := by
    cases d with
    | nil => exact absurd rfl hd
    | cons dh dt => exact ⟨dh, dt, rfl⟩
  have hwl : pyIsSpace wl = true := by
    rw [List.all_eq_true] at hwall
    exact hwall wl (by simp)
  simp only [List.all_cons, Bool.and_eq_true] at hdall
  obtain ⟨hdh, hdt⟩ := hdall
  have hwnd : (w0 ++ [wl]).all (fun c => !pyIsDigit c) = true := by
    rw [List.all_eq_true] at hwall ⊢
    intro x hx
    simp [space_not_digit (hwall x hx)]
  have hpw : ∀ a ∈ p ++ (w0 ++ [wl]), (fun c => !pyIsDigit c) a = true := by
    intro a ha
    rw [List.mem_append] at ha
    rcases ha with ha | ha
    · rw [List.all_eq_true] at hp
      exact hp a ha
    · rw [List.all_eq_true] at hwnd
      exact hwnd a ha
  have htw : ((p ++ (w0 ++ [wl])) ++ (dh :: dt)).takeWhile (fun c => !pyIsDigit c)
      = p ++ (w0 ++ [wl]) := by
    rw [List.takeWhile_append_of_pos hpw]
    rw [List.takeWhile_cons_of_neg (by simp [hdh])]
    simp
  have hdw : ((p ++ (w0 ++ [wl])) ++ (dh :: dt)).dropWhile (fun c => !pyIsDigit c)
      = dh :: dt := by
    rw [List.dropWhile_append_of_pos hpw]
    exact List.dropWhile_cons_of_neg (by simp [hdh])
  have hrev : (p ++ (w0 ++ [wl])).reverse = wl :: (p ++ w0).reverse := by
    rw [show p ++ (w0 ++ [wl]) = (p ++ w0) ++ [wl] from (List.append_assoc p w0 [wl]).symm]
    rw [List.reverse_append]
    rfl
  have htwd : (dh :: dt).takeWhile pyIsSpace = [] :=
    List.takeWhile_cons_of_neg (by simp [digit_not_space hdh])
  have h3 : nwefStage3 (p ++ w0) (dh :: dt, []) = some (p ++ w0, dh :: dt, []) := by
    rfl
  have h2 : nwefStage2 (p ++ w0) ([wl], dh :: dt) = some (p ++ w0, dh :: dt, []) := by
    unfold nwefStage2
    exact findSome?_plusSplits_all (by simp [hdh, hdt]) h3
  have h1 : nwefStage1 (p ++ w0, wl :: dh :: dt) = some (p ++ w0, dh :: dt, []) := by
    unfold nwefStage1
    show (plusSplits pyIsSpace (wl :: dh :: dt)).findSome? (nwefStage2 (p ++ w0)) = _
    rw [plusSplits_one hwl htwd]
    simp [List.findSome?_cons, h2]
  have hskip : nwefStage1 ((wl :: (p ++ w0).reverse).reverse, dh :: dt) = none := by
    unfold nwefStage1
    show (plusSplits pyIsSpace (dh :: dt)).findSome?
      (nwefStage2 ((wl :: (p ++ w0).reverse).reverse)) = none
    rw [plusSplits_cons_eq_nil (digit_not_space hdh)]
    rfl
  unfold name_with_elevation_fullmatch starSplits
  rw [htw, hdw, hrev]
  rw [findSome?_starSplitsAux_skip hskip]
  refine findSome?_starSplitsAux_head ?_
  rw [List.reverse_reverse]
  rw [show (w0 ++ [wl]).dropLast = w0 from List.dropLast_concat]
  exact h1

end OsmTools

namespace OsmTools

/-- Classifier-level closed form on shaped names (first pattern wins). -/
lemma classify_closed {p w d : List Char}
    (hp : p.all (fun c => !pyIsDigit c) = true)
    (hw : w ≠ []) (hwall : w.all pyIsSpace = true)
    (hd : d ≠ []) (hdall : d.all pyIsDigit = true) :
    classify (p ++ w ++ d) = some (p ++ w.dropLast, d, []) := by
  unfold classify
  rw [nwef_closed hp hw hwall hd hdall]

/-! ## Bridges from the executable float arithmetic to the rational order -/

lemma toRat_sub {a b : PyFloat} (ha : 0 < a.den) (hb : 0 < b.den) :
    (a.sub b).toRat = a.toRat - b.toRat := by
  have ha2 : (a.den : ℚ) ≠ 0 := Nat.cast_ne_zero.mpr (Nat.pos_iff_ne_zero.mp ha)
  have hb2 : (b.den : ℚ) ≠ 0 := Nat.cast_ne_zero.mpr (Nat.pos_iff_ne_zero.mp hb)
  simp only [PyFloat.sub, PyFloat.toRat]
  push_cast
  field_simp
  ring

lemma toRat_fabs {a : PyFloat} : (a.fabs).toRat = |a.toRat| := by
  simp only [PyFloat.fabs, PyFloat.toRat]
  rw [abs_div, abs_of_nonneg (show (0 : ℚ) ≤ (a.den : ℚ) by positivity), Int.cast_abs]

lemma gtInt_iff {a : PyFloat} (ha : 0 < a.den) (n : Int) :
    a.gtInt n = true ↔ (n : ℚ) < a.toRat := by
  unfold PyFloat.gtInt PyFloat.toRat
  rw [decide_eq_true_eq]
  constructor
  · intro h
    rw [lt_div_iff (by exact_mod_cast ha)]
    exact_mod_cast h
  · intro h
    rw [lt_div_iff (by exact_mod_cast ha)] at h
    exact_mod_cast h

lemma sub_den_pos {a b : PyFloat} (ha : 0 < a.den) (hb : 0 < b.den) :
    0 < (a.sub b).den := Nat.mul_pos ha hb

/-- The program's tolerance test, read as a rational inequality. -/
lemma gtInt_fabs_sub_iff {a b : PyFloat} (ha : 0 < a.den) (hb : 0 < b.den) (n : Int) :
    ((a.sub b).fabs).gtInt n = true ↔ (n : ℚ) < |a.toRat - b.toRat| := by
  have hden : 0 < ((a.sub b).fabs).den := sub_den_pos ha hb
  rw [gtInt_iff hden, toRat_fabs, toRat_sub ha hb]

/-- The rejection test fails exactly when the difference is within tolerance. -/
lemma gtInt_fabs_sub_false_iff {a b : PyFloat} (ha : 0 < a.den) (hb : 0 < b.den)
    (n : Int) :
    ((a.sub b).fabs).gtInt n = false ↔ |a.toRat - b.toRat| ≤ (n : ℚ) := by
  have h2 := gtInt_fabs_sub_iff ha hb n
  constructor
  · intro h
    rw [← not_lt]
    intro hc
    have h3 := h2.mpr hc
    rw [h] at h3
    exact Bool.false_ne_true h3
  · intro h
    cases hg : ((a.sub b).fabs).gtInt n with
    | false => rfl
    | true => exact absurd (h2.mp hg) (not_lt.mpr h)

end OsmTools


namespace OsmTools

/-- Every successfully parsed float has a positive denominator. -/
lemma parseFloatCore_den_pos {cs : List Char} {x : PyFloat}
    (h : parseFloatCore cs = some x) : 0 < x.den := by
  unfold parseFloatCore at h
  simp only [] at h
  repeat' split at h
  all_goals
    first
    | exact Option.noConfusion h
    | (injection h with h
       subst h
       first
       | exact pow_pos (by norm_num) _
       | exact Nat.mul_pos (pow_pos (by norm_num) _) (pow_pos (by norm_num) _))

lemma parseFloat_den_pos {s : String} {x : PyFloat}
    (h : parseFloat s = some x) : 0 < x.den :=
  parseFloatCore_den_pos h

/-- float() raises on the empty string, so a parsed string is nonempty. -/
lemma parseFloat_ne_empty {s : String} {x : PyFloat}
    (h : parseFloat s = some x) : s ≠ "" := by
  intro he
  subst he
  rw [show parseFloat "" = none from rfl] at h
  exact Option.noConfusion h

/-! ## The tag scan picks the LAST tag of each key -/

lemma scanTagsAux_name (ts : List Tag) :
    ∀ (i : Nat) (acc : Option Nat × Option Nat × Option Nat),
    (scanTagsAux i acc ts).1 =
      match lastIdxOf "name" ts with
      | some j => some (i + j)
      | none => acc.1 := by
  induction ts with
  | nil => intro i acc; rfl
  | cons t ts ih =>
    intro i acc
    rw [scanTagsAux, ih]
    have hstep : lastIdxOf "name" (t :: ts) =
        match lastIdxOf "name" ts with
        | some i => some (i + 1)
        | none => if t.k = "name" then some 0 else none := rfl
    rw [hstep]
    cases hl : lastIdxOf "name" ts with
    | some j =>
      simp only [hl]
      congr 1
      omega
    | none =>
      simp only [hl]
      by_cases h : t.k = "name" <;> simp [h]

lemma scanTagsAux_ele (ts : List Tag) :
    ∀ (i : Nat) (acc : Option Nat × Option Nat × Option Nat),
    (scanTagsAux i acc ts).2.1 =
      match lastIdxOf "ele" ts with
      | some j => some (i + j)
      | none => acc.2.1 := by
  induction ts with
  | nil => intro i acc; rfl
  | cons t ts ih =>
    intro i acc
    rw [scanTagsAux, ih]
    have hstep : lastIdxOf "ele" (t :: ts) =
        match lastIdxOf "ele" ts with
        | some i => some (i + 1)
        | none => if t.k = "ele" then some 0 else none := rfl
    rw [hstep]
    cases hl : lastIdxOf "ele" ts with
    | some j =>
      simp only [hl]
      congr 1
      omega
    | none =>
      simp only [hl]
      by_cases h : t.k = "ele" <;> simp [h]

lemma scanTagsAux_natural (ts : List Tag) :
    ∀ (i : Nat) (acc : Option Nat × Option Nat × Option Nat),
    (scanTagsAux i acc ts).2.2 =
      match lastIdxOf "natural" ts with
      | some j => some (i + j)
      | none => acc.2.2 := by
  induction ts with
  | nil => intro i acc; rfl
  | cons t ts ih =>
    intro i acc
    rw [scanTagsAux, ih]
    have hstep : lastIdxOf "natural" (t :: ts) =
        match lastIdxOf "natural" ts with
        | some i => some (i + 1)
        | none => if t.k = "natural" then some 0 else none := rfl
    rw [hstep]
    cases hl : lastIdxOf "natural" ts with
    | some j =>
      simp only [hl]
      congr 1
      omega
    | none =>
      simp only [hl]
      by_cases h : t.k = "natural" <;> simp [h]

/-- Which tag the scan of lines 123-132 selects, in closed form: the last one
with the relevant key. -/
lemma scanTags_eq_lastIdx (tags : List Tag) :
    scanTags tags =
      (lastIdxOf "name" tags, lastIdxOf "ele" tags, lastIdxOf "natural" tags) := by
  have h1 := scanTagsAux_name tags 0 (none, none, none)
  have h2 := scanTagsAux_ele tags 0 (none, none, none)
  have h3 := scanTagsAux_natural tags 0 (none, none, none)
  unfold scanTags
  refine Prod.ext ?_ (Prod.ext ?_ ?_)
  · rw [h1]
    cases hl : lastIdxOf "name" tags <;> simp [hl]
  · rw [h2]
    cases hl : lastIdxOf "ele" tags <;> simp [hl]
  · rw [h3]
    cases hl : lastIdxOf "natural" tags <;> simp [hl]

/-- The tag at the selected index exists and has the searched key. -/
lemma lastIdxOf_key {key : String} {tags : List Tag} {j : Nat}
    (h : lastIdxOf key tags = some j) :
    ∃ t, tags.get? j = some t ∧ t.k = key := by
  induction tags generalizing j with
  | nil => simp [lastIdxOf] at h
  | cons t ts ih =>
    have hstep : lastIdxOf key (t :: ts) =
        match lastIdxOf key ts with
        | some i => some (i + 1)
        | none => if t.k = key then some 0 else none := rfl
    rw [hstep] at h
    cases hl : lastIdxOf key ts with
    | some i =>
      rw [hl] at h
      simp only [Option.some.injEq] at h
      subst h
      obtain ⟨u, hu, hk⟩ := ih hl
      exact ⟨u, by simpa using hu, hk⟩
    | none =>
      rw [hl] at h
      by_cases hk : t.k = key
      · rw [if_pos hk] at h
        simp only [Option.some.injEq] at h
        subst h
        exact ⟨t, rfl, hk⟩
      · rw [if_neg hk] at h
        exact absurd h (by simp)

end OsmTools

namespace OsmTools

/-! ## Branch-by-branch evaluation of processNode -/

lemma processNode_not_natural {lookup : Lookup} {node : OsmNode}
    (h1 : naturalOk node = false) :
    processNode lookup node = .ok (node, []) := by
  simp [processNode, h1]

lemma processNode_no_name {lookup : Lookup} {node : OsmNode}
    (h1 : naturalOk node = true) (h2 : (scanTags node.tags).1 = none) :
    processNode lookup node = .ok (node, []) := by
  simp [processNode, h1, h2]

lemma processNode_no_match {lookup : Lookup} {node : OsmNode} {nameIdx : Nat}
    (h1 : naturalOk node = true) (h2 : (scanTags node.tags).1 = some nameIdx)
    (h3 : classify (tagValAt node.tags nameIdx).toList = none) :
    processNode lookup node = .ok (node, []) := by
  have h3d : classify (tagValAt node.tags nameIdx).data = none := h3
  simp [processNode, h1, h2, h3d]

lemma processNode_rest {lookup : Lookup} {node : OsmNode} {nameIdx : Nat}
    {m : List Char × List Char × List Char}
    (h1 : naturalOk node = true) (h2 : (scanTags node.tags).1 = some nameIdx)
    (h3 : classify (tagValAt node.tags nameIdx).toList = some m)
    (h4 : m.2.2 ≠ []) :
    processNode lookup node =
      .ok (node, [.warnSkipRest (tagValAt node.tags nameIdx)]) := by
  have h3d : classify (tagValAt node.tags nameIdx).data = some m := h3
  simp [processNode, h1, h2, h3d, h4]

lemma processNode_http {lookup : Lookup} {node : OsmNode} {nameIdx : Nat}
    {m : List Char × List Char × List Char}
    (h1 : naturalOk node = true) (h2 : (scanTags node.tags).1 = some nameIdx)
    (h3 : classify (tagValAt node.tags nameIdx).toList = some m)
    (h4 : m.2.2 = [])
    (h5 : lookup (node.lon, node.lat) = .error ()) :
    processNode lookup node = .error .httpError := by
  have h3d : classify (tagValAt node.tags nameIdx).data = some m := h3
  simp [processNode, h1, h2, h3d, h4, h5]

lemma processNode_eleparse_fail {lookup : Lookup} {node : OsmNode} {nameIdx : Nat}
    {m : List Char × List Char × List Char} {dmtEle? : Option PyNum}
    (h1 : naturalOk node = true) (h2 : (scanTags node.tags).1 = some nameIdx)
    (h3 : classify (tagValAt node.tags nameIdx).toList = some m)
    (h4 : m.2.2 = [])
    (h5 : lookup (node.lon, node.lat) = .ok dmtEle?)
    (h6 : parseFloat (String.mk m.2.1) = none) :
    processNode lookup node = .error (.valueErrorParse (String.mk m.2.1)) := by
  have h3d : classify (tagValAt node.tags nameIdx).data = some m := h3
  simp [processNode, h1, h2, h3d, h4, h5, h6]

lemma processNode_dtm_none {lookup : Lookup} {node : OsmNode} {nameIdx : Nat}
    {m : List Char × List Char × List Char} {claimed : PyFloat}
    (h1 : naturalOk node = true) (h2 : (scanTags node.tags).1 = some nameIdx)
    (h3 : classify (tagValAt node.tags nameIdx).toList = some m)
    (h4 : m.2.2 = [])
    (h5 : lookup (node.lon, node.lat) = .ok none)
    (h6 : parseFloat (String.mk m.2.1) = some claimed) :
    processNode lookup node = .error .typeErrorNoneSub := by
  have h3d : classify (tagValAt node.tags nameIdx).data = some m := h3
  simp [processNode, h1, h2, h3d, h4, h5, h6]

lemma processNode_dtm_far {lookup : Lookup} {node : OsmNode} {nameIdx : Nat}
    {m : List Char × List Char × List Char} {claimed : PyFloat} {z : PyNum}
    (h1 : naturalOk node = true) (h2 : (scanTags node.tags).1 = some nameIdx)
    (h3 : classify (tagValAt node.tags nameIdx).toList = some m)
    (h4 : m.2.2 = [])
    (h5 : lookup (node.lon, node.lat) = .ok (some z))
    (h6 : parseFloat (String.mk m.2.1) = some claimed)
    (h7 : ((z.val.sub claimed).fabs).gtInt 20 = true) :
    processNode lookup node =
      .ok (node, [.warnSkipDtm (tagValAt node.tags nameIdx)]) := by
  have h3d : classify (tagValAt node.tags nameIdx).data = some m := h3
  simp [processNode, h1, h2, h3d, h4, h5, h6, h7]

lemma processNode_exparse_fail {lookup : Lookup} {node : OsmNode} {nameIdx : Nat}
    {m : List Char × List Char × List Char} {claimed : PyFloat} {z : PyNum}
    (h1 : naturalOk node = true) (h2 : (scanTags node.tags).1 = some nameIdx)
    (h3 : classify (tagValAt node.tags nameIdx).toList = some m)
    (h4 : m.2.2 = [])
    (h5 : lookup (node.lon, node.lat) = .ok (some z))
    (h6 : parseFloat (String.mk m.2.1) = some claimed)
    (h7 : ((z.val.sub claimed).fabs).gtInt 20 = false)
    (h8 : existingEleStr node ≠ "")
    (h9 : parseFloat (existingEleStr node) = none) :
    processNode lookup node = .error (.valueErrorParse (existingEleStr node)) := by
  have h3d : classify (tagValAt node.tags nameIdx).data = some m := h3
  simp [processNode, h1, h2, h3d, h4, h5, h6, h7, h8, h9]

lemma processNode_ex_far {lookup : Lookup} {node : OsmNode} {nameIdx : Nat}
    {m : List Char × List Char × List Char} {claimed ex : PyFloat} {z : PyNum}
    (h1 : naturalOk node = true) (h2 : (scanTags node.tags).1 = some nameIdx)
    (h3 : classify (tagValAt node.tags nameIdx).toList = some m)
    (h4 : m.2.2 = [])
    (h5 : lookup (node.lon, node.lat) = .ok (some z))
    (h6 : parseFloat (String.mk m.2.1) = some claimed)
    (h7 : ((z.val.sub claimed).fabs).gtInt 20 = false)
    (h9 : parseFloat (existingEleStr node) = some ex)
    (h10 : ((claimed.sub ex).fabs).gtInt 10 = true) :
    processNode lookup node =
      .ok (node, [.warnSkipExisting (tagValAt node.tags nameIdx)]) := by
  have h3d : classify (tagValAt node.tags nameIdx).data = some m := h3
  simp [processNode, h1, h2, h3d, h4, h5, h6, h7, parseFloat_ne_empty h9, h9, h10]

lemma processNode_accept {lookup : Lookup} {node : OsmNode} {nameIdx : Nat}
    {m : List Char × List Char × List Char} {claimed : PyFloat} {z : PyNum}
    (h1 : naturalOk node = true) (h2 : (scanTags node.tags).1 = some nameIdx)
    (h3 : classify (tagValAt node.tags nameIdx).toList = some m)
    (h4 : m.2.2 = [])
    (h5 : lookup (node.lon, node.lat) = .ok (some z))
    (h6 : parseFloat (String.mk m.2.1) = some claimed)
    (h7 : ((z.val.sub claimed).fabs).gtInt 20 = false)
    (h8 : existingEleStr node = "" ∨
      ∃ ex, parseFloat (existingEleStr node) = some ex ∧
        ((claimed.sub ex).fabs).gtInt 10 = false) :
    processNode lookup node =
      .ok (rewriteNode node nameIdx m.1 m.2.1 (tagValAt node.tags nameIdx) z, []) := by
  have h3d : classify (tagValAt node.tags nameIdx).data = some m := h3
  rcases h8 with h8 | ⟨ex, hex, h10⟩
  · simp [processNode, h1, h2, h3d, h4, h5, h6, h7, h8]
  · simp [processNode, h1, h2, h3d, h4, h5, h6, h7, parseFloat_ne_empty hex, hex, h10]

end OsmTools

namespace OsmTools

/-- Completeness of the branch analysis: a successful per-node outcome is
either the untouched node or the accepted rewrite. -/
lemma processNode_ok_inv {lookup : Lookup} {node r : OsmNode} {logs : List LogEvent}
    (h : processNode lookup node = .ok (r, logs)) :
    r = node ∨
    (logs = [] ∧ ∃ nameIdx m z,
      naturalOk node = true ∧
      (scanTags node.tags).1 = some nameIdx ∧
      classify (tagValAt node.tags nameIdx).toList = some m ∧
      m.2.2 = [] ∧
      lookup (node.lon, node.lat) = .ok (some z) ∧
      r = rewriteNode node nameIdx m.1 m.2.1 (tagValAt node.tags nameIdx) z) := by
  cases h1 : naturalOk node with
  | false =>
    rw [processNode_not_natural h1] at h
    injection h with h
    simp only [Prod.mk.injEq] at h
    exact Or.inl h.1.symm
  | true =>
    cases h2 : (scanTags node.tags).1 with
    | none =>
      rw [processNode_no_name h1 h2] at h
      injection h with h
      simp only [Prod.mk.injEq] at h
      exact Or.inl h.1.symm
    | some nameIdx =>
      cases h3 : classify (tagValAt node.tags nameIdx).toList with
      | none =>
        rw [processNode_no_match h1 h2 h3] at h
        injection h with h
        simp only [Prod.mk.injEq] at h
        exact Or.inl h.1.symm
      | some m =>
        by_cases h4 : m.2.2 = []
        · cases h5 : lookup (node.lon, node.lat) with
          | error u =>
            cases u
            rw [processNode_http h1 h2 h3 h4 h5] at h
            exact Except.noConfusion h
          | ok dmtEle? =>
            cases h6 : parseFloat (String.mk m.2.1) with
            | none =>
              rw [processNode_eleparse_fail h1 h2 h3 h4 h5 h6] at h
              exact Except.noConfusion h
            | some claimed =>
              cases dmtEle? with
              | none =>
                rw [processNode_dtm_none h1 h2 h3 h4 h5 h6] at h
                exact Except.noConfusion h
              | some z =>
                cases h7 : ((z.val.sub claimed).fabs).gtInt 20 with
                | true =>
                  rw [processNode_dtm_far h1 h2 h3 h4 h5 h6 h7] at h
                  injection h with h
                  simp only [Prod.mk.injEq] at h
                  exact Or.inl h.1.symm
                | false =>
                  by_cases h8 : existingEleStr node = ""
                  · rw [processNode_accept h1 h2 h3 h4 h5 h6 h7 (Or.inl h8)] at h
                    injection h with h
                    simp only [Prod.mk.injEq] at h
                    exact Or.inr ⟨h.2.symm, nameIdx, m, z, rfl, rfl, h3, h4, rfl, h.1.symm⟩
                  · cases h9 : parseFloat (existingEleStr node) with
                    | none =>
                      rw [processNode_exparse_fail h1 h2 h3 h4 h5 h6 h7 h8 h9] at h
                      exact Except.noConfusion h
                    | some ex =>
                      cases h10 : ((claimed.sub ex).fabs).gtInt 10 with
                      | true =>
                        rw [processNode_ex_far h1 h2 h3 h4 h5 h6 h7 h9 h10] at h
                        injection h with h
                        simp only [Prod.mk.injEq] at h
                        exact Or.inl h.1.symm
                      | false =>
                        rw [processNode_accept h1 h2 h3 h4 h5 h6 h7
                          (Or.inr ⟨ex, h9, h10⟩)] at h
                        injection h with h
                        simp only [Prod.mk.injEq] at h
                        exact Or.inr ⟨h.2.symm, nameIdx, m, z, rfl, rfl, h3, h4, rfl, h.1.symm⟩
        · rw [processNode_rest h1 h2 h3 h4] at h
          injection h with h
          simp only [Prod.mk.injEq] at h
          exact Or.inl h.1.symm

end OsmTools

namespace OsmTools

/-! ## Structure of the rewritten node -/

lemma set_eq_self_of_get? {α : Type} {l : List α} {i : Nat} {a : α}
    (h : l.get? i = some a) : l.set i a = l := by
  induction l generalizing i with
  | nil => simp at h
  | cons x xs ih =>
    cases i with
    | zero =>
      simp only [List.get?_cons_zero, Option.some.injEq] at h
      rw [List.set_cons_zero, h]
    | succ n =>
      simp only [List.get?_cons_succ] at h
      rw [List.set_cons_succ, ih h]

/-- Overwriting the selected name tag value keeps the key sequence intact. -/
lemma keys_set_name (v : String) {tags : List Tag} {i : Nat} {t : Tag}
    (ht : tags.get? i = some t) (hk : t.k = "name") :
    (tags.set i { k := "name", v := v }).map Tag.k = tags.map Tag.k := by
  rw [List.map_set]
  apply set_eq_self_of_get?
  rw [List.get?_map, ht]
  simp [hk]

/-- lastIdxOf only inspects keys. -/
lemma lastIdxOf_congr {key : String} {l l2 : List Tag}
    (h : l.map Tag.k = l2.map Tag.k) : lastIdxOf key l = lastIdxOf key l2 := by
  induction l generalizing l2 with
  | nil =>
    cases l2 with
    | nil => rfl
    | cons u us => simp at h
  | cons t ts ih =>
    cases l2 with
    | nil => simp at h
    | cons u us =>
      simp only [List.map_cons, List.cons.injEq] at h
      have hstep : ∀ (v : Tag) (vs : List Tag), lastIdxOf key (v :: vs) =
          match lastIdxOf key vs with
          | some i => some (i + 1)
          | none => if v.k = key then some 0 else none := fun v vs => rfl
      rw [hstep t ts, hstep u us, ih h.2, h.1]

/-- lastIdxOf across an append: the right block wins when it has the key. -/
lemma lastIdxOf_append {key : String} {l r : List Tag} :
    lastIdxOf key (l ++ r) =
      match lastIdxOf key r with
      | some j => some (l.length + j)
      | none => lastIdxOf key l := by
  induction l with
  | nil =>
    cases hr : lastIdxOf key r with
    | some j => simp [hr]
    | none => simp [hr, lastIdxOf]
  | cons t ts ih =>
    have hstep : ∀ (v : Tag) (vs : List Tag), lastIdxOf key (v :: vs) =
        match lastIdxOf key vs with
        | some i => some (i + 1)
        | none => if v.k = key then some 0 else none := fun v vs => rfl
    rw [List.cons_append, hstep t (ts ++ r), ih, hstep t ts]
    cases hr : lastIdxOf key r with
    | some j =>
      simp only [hr]
      congr 1
      simp only [List.length_cons]
      omega
    | none =>
      simp only [hr]

/-- The appended audit block contains no name or natural key, and its ele tag
sits at relative index 0. -/
lemma lastIdxOf_appended_name {ele : List Char} {orig : String} {z : PyNum} :
    lastIdxOf "name" (appendedTags ele orig z) = none := rfl

lemma lastIdxOf_appended_natural {ele : List Char} {orig : String} {z : PyNum} :
    lastIdxOf "natural" (appendedTags ele orig z) = none := rfl

lemma lastIdxOf_appended_ele {ele : List Char} {orig : String} {z : PyNum} :
    lastIdxOf "ele" (appendedTags ele orig z) = some 0 := rfl

/-- Tag scan of the rewritten node: same selected name and natural tags, the
new ele tag (appended last) now selected. -/
lemma scanTags_rewrite {node : OsmNode} {nameIdx : Nat} {np ele : List Char}
    {orig : String} {z : PyNum}
    (h2 : (scanTags node.tags).1 = some nameIdx) :
    scanTags (rewriteNode node nameIdx np ele orig z).tags =
      (some nameIdx, some node.tags.length, (scanTags node.tags).2.2) := by
  have hlast : lastIdxOf "name" node.tags = some nameIdx := by
    rw [scanTags_eq_lastIdx] at h2
    exact h2
  obtain ⟨t, ht, hk⟩ := lastIdxOf_key hlast
  have hkeys := keys_set_name (String.mk np) ht hk
  simp only [rewriteNode]
  rw [scanTags_eq_lastIdx]
  refine Prod.ext ?_ (Prod.ext ?_ ?_)
  · simp only [lastIdxOf_append, lastIdxOf_appended_name]
    rw [lastIdxOf_congr hkeys, hlast]
  · simp only [lastIdxOf_append, lastIdxOf_appended_ele]
    simp [List.length_set]
  · simp only [lastIdxOf_append, lastIdxOf_appended_natural]
    rw [lastIdxOf_congr hkeys]
    rw [scanTags_eq_lastIdx]

end OsmTools

namespace OsmTools

lemma rewrite_get?_lt {node : OsmNode} {nameIdx : Nat} {np ele : List Char}
    {orig : String} {z : PyNum} {j : Nat}
    (hj : j < node.tags.length) (hne : j ≠ nameIdx) :
    (rewriteNode node nameIdx np ele orig z).tags.get? j = node.tags.get? j := by
  simp only [rewriteNode]
  rw [List.get?_append (by simpa using hj)]
  rw [List.get?_eq_getElem?, List.get?_eq_getElem?, List.getElem?_set_ne (Ne.symm hne)]

lemma rewrite_get?_self {node : OsmNode} {nameIdx : Nat} {np ele : List Char}
    {orig : String} {z : PyNum}
    (hj : nameIdx < node.tags.length) :
    (rewriteNode node nameIdx np ele orig z).tags.get? nameIdx =
      some { k := "name", v := String.mk np } := by
  simp only [rewriteNode]
  rw [List.get?_append (by simpa using hj)]
  rw [List.get?_eq_getElem?, List.getElem?_set_self (by simpa using hj)]

lemma scanTags_name_lt {tags : List Tag} {i : Nat}
    (h : (scanTags tags).1 = some i) :
    i < tags.length ∧ ∃ t, tags.get? i = some t ∧ t.k = "name" := by
  rw [scanTags_eq_lastIdx] at h
  obtain ⟨t, ht, hk⟩ := lastIdxOf_key h
  refine ⟨?_, t, ht, hk⟩
  obtain ⟨hlt, _⟩ := List.get?_eq_some.mp ht
  exact hlt

lemma scanTags_natural_lt {tags : List Tag} {i : Nat}
    (h : (scanTags tags).2.2 = some i) :
    i < tags.length ∧ ∃ t, tags.get? i = some t ∧ t.k = "natural" := by
  rw [scanTags_eq_lastIdx] at h
  obtain ⟨t, ht, hk⟩ := lastIdxOf_key h
  refine ⟨?_, t, ht, hk⟩
  obtain ⟨hlt, _⟩ := List.get?_eq_some.mp ht
  exact hlt

/-- The natural tag survives the rewrite (only the name tag value changes and
tags are appended), so the rewritten node is still a peak/hill. -/
lemma naturalOk_rewrite {node : OsmNode} {nameIdx : Nat} {np ele : List Char}
    {orig : String} {z : PyNum}
    (h1 : naturalOk node = true) (h2 : (scanTags node.tags).1 = some nameIdx) :
    naturalOk (rewriteNode node nameIdx np ele orig z) = true := by
  unfold naturalOk at h1 ⊢
  rw [scanTags_rewrite h2]
  cases hnat : (scanTags node.tags).2.2 with
  | none =>
    rw [hnat] at h1
    exact absurd h1 (by simp)
  | some k =>
    simp only [hnat] at h1
    obtain ⟨hklt, t, ht, hk⟩ := scanTags_natural_lt hnat
    obtain ⟨hnlt, u, hu, hku⟩ := scanTags_name_lt h2
    have hne : k ≠ nameIdx := by
      intro he
      subst he
      rw [ht] at hu
      injection hu with hu
      rw [← hu] at hku
      rw [hk] at hku
      exact absurd hku (by decide)
    have hval : tagValAt (rewriteNode node nameIdx np ele orig z).tags k =
        tagValAt node.tags k := by
      unfold tagValAt
      rw [rewrite_get?_lt hklt hne]
    simp only [hval]
    exact h1

/-- The classifier never matches the rewritten name part. -/
lemma classify_fst_nodigit {s : List Char} {m : List Char × List Char × List Char}
    (h : classify s = some m) : m.1.all (fun c => !pyIsDigit c) = true := by
  obtain ⟨a, b, c⟩ := m
  exact classify_namePart_nodigit h

/-- A node the first pass rewrote is inert on a second pass, under any lookup:
its new name matches neither pattern, so it passes through unchanged. -/
lemma processNode_second_pass {lookup lookup2 : Lookup} {node r : OsmNode}
    {logs : List LogEvent}
    (h : processNode lookup node = .ok (r, logs)) (hne : r ≠ node) :
    (∃ nm, nodeName? r = some nm ∧ classify nm.toList = none) ∧
    processNode lookup2 r = .ok (r, []) := by
  rcases processNode_ok_inv h with he | ⟨hlogs, nameIdx, m, z, h1, h2, h3, h4, h5, hr⟩
  · exact absurd he hne
  subst hr
  obtain ⟨hnlt, u, hu, hku⟩ := scanTags_name_lt h2
  have hname2 : (scanTags (rewriteNode node nameIdx m.1 m.2.1
      (tagValAt node.tags nameIdx) z).tags).1 = some nameIdx := by
    rw [scanTags_rewrite h2]
  have hval : tagValAt (rewriteNode node nameIdx m.1 m.2.1
      (tagValAt node.tags nameIdx) z).tags nameIdx = String.mk m.1 := by
    unfold tagValAt
    rw [rewrite_get?_self hnlt]
  have hclassify2 : classify (String.mk m.1).toList = none := by
    have he2 : (String.mk m.1).toList = m.1 := rfl
    rw [he2]
    exact classify_eq_none_of_nodigit (classify_fst_nodigit h3)
  have hnat2 : naturalOk (rewriteNode node nameIdx m.1 m.2.1
      (tagValAt node.tags nameIdx) z) = true := naturalOk_rewrite h1 h2
  constructor
  · refine ⟨String.mk m.1, ?_, hclassify2⟩
    unfold nodeName?
    simp only [hname2, hval]
  · apply processNode_no_match hnat2 hname2
    rw [hval]
    exact hclassify2

/-- Second pass over a successful first-pass output changes no node. -/
lemma runMain_second_pass {lookup : Lookup} {nodes outs : List OsmNode}
    {logs : List LogEvent}
    (h : runMain lookup nodes = .ok (outs, logs)) :
    ∃ logs2, runMain lookup outs = .ok (outs, logs2) := by
  induction nodes generalizing outs logs with
  | nil =>
    unfold runMain at h
    injection h with h
    simp only [Prod.mk.injEq] at h
    obtain ⟨ho, hl⟩ := h
    refine ⟨[], ?_⟩
    rw [← ho]
    rfl
  | cons n ns ih =>
    unfold runMain at h
    cases hp : processNode lookup n with
    | error e =>
      rw [hp] at h
      exact Except.noConfusion h
    | ok nl =>
      rw [hp] at h
      cases hr : runMain lookup ns with
      | error e =>
        rw [hr] at h
        exact Except.noConfusion h
      | ok nsl =>
        rw [hr] at h
        injection h with h
        simp only [Prod.mk.injEq] at h
        obtain ⟨ho, hl⟩ := h
        obtain ⟨logs2, ih2⟩ := ih hr
        by_cases heq : nl.1 = n
        · refine ⟨nl.2 ++ logs2, ?_⟩
          rw [← ho]
          unfold runMain
          rw [heq, hp, ih2]
          simp [heq]
        · have hsp := (@processNode_second_pass lookup lookup n nl.1 nl.2 hp heq).2
          refine ⟨[] ++ logs2, ?_⟩
          rw [← ho]
          unfold runMain
          rw [hsp, ih2]

end OsmTools

namespace OsmTools

lemma acceptsNode_of_eq {lookup : Lookup} {node r : OsmNode} {logs : List LogEvent}
    (h : processNode lookup node = .ok (r, logs)) :
    acceptsNode lookup node = decide (r ≠ node) := by
  unfold acceptsNode
  rw [h]

/-- An accepted rewrite always differs from the original node: four tags were
appended. -/
lemma rewriteNode_ne {node : OsmNode} {nameIdx : Nat} {np ele : List Char}
    {orig : String} {z : PyNum} :
    rewriteNode node nameIdx np ele orig z ≠ node := by
  intro he
  have hlen := congrArg (fun q => q.tags.length) he
  simp only [rewriteNode, appendedTags, mk_tag_element, List.length_append,
    List.length_set, List.length_cons, List.length_nil] at hlen
  omega

lemma rewrite_keys {node : OsmNode} {nameIdx : Nat} {np ele : List Char}
    {orig : String} {z : PyNum}
    (h2 : (scanTags node.tags).1 = some nameIdx) :
    (rewriteNode node nameIdx np ele orig z).tags.map Tag.k =
      node.tags.map Tag.k ++ ["ele", "NOTE", "name:original", "ele:kartverket-dmt"] := by
  obtain ⟨_, t, ht, hk⟩ := scanTags_name_lt h2
  simp only [rewriteNode, List.map_append]
  rw [keys_set_name (String.mk np) ht hk]
  rfl

/-- A per-node exception aborts the whole run as soon as it is reached. -/
lemma runMain_append_error {lookup : Lookup} {pre post : List OsmNode}
    {node : OsmNode} {e : RunError}
    (hpre : ∀ q ∈ pre, ∃ res, processNode lookup q = .ok res)
    (h : processNode lookup node = .error e) :
    runMain lookup (pre ++ node :: post) = .error e := by
  induction pre with
  | nil =>
    show runMain lookup (node :: post) = .error e
    unfold runMain
    rw [h]
  | cons q rest ih =>
    obtain ⟨res, hres⟩ := hpre q (by simp)
    have ih2 := ih (fun q2 hq2 => hpre q2 (by simp [hq2]))
    show runMain lookup (q :: (rest ++ node :: post)) = .error e
    unfold runMain
    rw [hres, ih2]

/-- Locality of the run: output node j is exactly the processing of input
node j; no other node influences it. -/
lemma runMain_ok_nodes {lookup : Lookup} {nodes outs : List OsmNode}
    {logs : List LogEvent}
    (h : runMain lookup nodes = .ok (outs, logs)) :
    outs.length = nodes.length ∧
    ∀ j, j < nodes.length → ∃ nj oj lg, nodes.get? j = some nj ∧
      outs.get? j = some oj ∧ processNode lookup nj = .ok (oj, lg) := by
  induction nodes generalizing outs logs with
  | nil =>
    unfold runMain at h
    injection h with h
    simp only [Prod.mk.injEq] at h
    rw [← h.1]
    exact ⟨rfl, fun j hj => absurd hj (by simp)⟩
  | cons n ns ih =>
    unfold runMain at h
    cases hp : processNode lookup n with
    | error e =>
      rw [hp] at h
      exact Except.noConfusion h
    | ok nl =>
      rw [hp] at h
      cases hr : runMain lookup ns with
      | error e =>
        rw [hr] at h
        exact Except.noConfusion h
      | ok nsl =>
        rw [hr] at h
        injection h with h
        simp only [Prod.mk.injEq] at h
        obtain ⟨ho, hl⟩ := h
        obtain ⟨hlen, hall⟩ := ih hr
        rw [← ho]
        refine ⟨by simp [hlen], ?_⟩
        intro j hj
        cases j with
        | zero => exact ⟨n, nl.1, nl.2, rfl, rfl, hp⟩
        | succ jp =>
          simp only [List.get?_cons_succ]
          exact hall jp (by simpa using hj)

end OsmTools

namespace OsmTools

/-! ## Claim C2 (error_handling, code_bug in the source)

The spec says an unknown DTM elevation is rejected-and-logged and processing
continues.  The code stores None for a missing elevation (get_elevation line
67) and then evaluates abs(None - float(ele)) at line 166, which raises
TypeError and aborts the run with no output. -/

/-- Claim C2 is violated by the code: on a candidate node whose DTM lookup
yields no elevation, processing raises (TypeError from None arithmetic) and
the whole run aborts instead of skipping the node and continuing. -/
theorem c2_dtm_unknown_crashes :
    processNode noneLookup storefjellNode = .error .typeErrorNoneSub ∧
    runMain noneLookup [storefjellNode, plainNode] = .error .typeErrorNoneSub :=
  ⟨rfl, rfl⟩

/-! ## Claim C3 (functional_correctness, corrected)

The spec says name_part is the prefix with its trailing whitespace trimmed.
Greedy backtracking in ([^0-9]*)\s+([0-9]+)(.*) releases exactly ONE
whitespace character to \s+, so when the whitespace run between prefix and
digits is longer than one character, name_part keeps the rest of it. -/

/-- Claim C3 as stated is false: for the shaped name "Abc  1200" (prefix
"Abc", two spaces, digits "1200", empty remainder) the classifier produces
name_part "Abc " (one trailing space kept), not the trimmed prefix "Abc". -/
theorem c3_counterexample :
    "Abc  1200".toList = "Abc".toList ++ "  ".toList ++ "1200".toList ∧
    ("Abc".toList).all (fun c => !pyIsDigit c) = true ∧
    ("  ".toList).all pyIsSpace = true ∧
    ("1200".toList).all pyIsDigit = true ∧
    classify "Abc  1200".toList = some ("Abc ".toList, "1200".toList, []) ∧
    "Abc ".toList ≠ "Abc".toList := by decide

/-- Claim C3 (amended): for every name of the shape non-digit-containing
prefix, then whitespace, then digits, with nothing after the digits, the
classifier produces elevation_part = the digit run and name_part = the prefix
followed by all but the last character of the whitespace run; name_part
equals the whitespace-trimmed prefix exactly when that run is one character
long. -/
theorem c3_classifier_shape {p w d : List Char}
    (hp : p.all (fun c => !pyIsDigit c) = true)
    (hw : w ≠ []) (hwall : w.all pyIsSpace = true)
    (hd : d ≠ []) (hdall : d.all pyIsDigit = true) :
    classify (p ++ w ++ d) = some (p ++ w.dropLast, d, []) :=
  classify_closed hp hw hwall hd hdall

/-- Witness for the amended C3 at the single-space example "Storefjell 1200",
where the amended statement coincides with the original claim. -/
theorem c3_witness :
    ("Storefjell".toList).all (fun c => !pyIsDigit c) = true ∧
    classify ("Storefjell".toList ++ " ".toList ++ "1200".toList) =
      some ("Storefjell".toList ++ (" ".toList).dropLast, "1200".toList, []) :=
  ⟨by decide, c3_classifier_shape (by decide) (by decide) (by decide)
    (by decide) (by decide)⟩

/-! ## Claim C4 (error_handling, confirmed)

A non-empty remainder is rejected before the DTM lookup is even consulted
(line 159 precedes line 164), so no lookup result can cause acceptance. -/

/-- Claim C4: a candidate whose name matches a pattern with non-empty
remainder is rejected under EVERY lookup: a warning naming the skipped name
is logged, the node is returned with its tags untouched, and the correction
is never accepted. -/
theorem c4_nonempty_remainder_rejected {node : OsmNode} {nameIdx : Nat}
    {m : List Char × List Char × List Char}
    (h1 : naturalOk node = true) (h2 : (scanTags node.tags).1 = some nameIdx)
    (h3 : classify (tagValAt node.tags nameIdx).toList = some m)
    (h4 : m.2.2 ≠ []) :
    ∀ lookup : Lookup,
      processNode lookup node =
        .ok (node, [.warnSkipRest (tagValAt node.tags nameIdx)]) ∧
      acceptsNode lookup node = false := by
  intro lookup
  have he := @processNode_rest lookup node nameIdx m h1 h2 h3 h4
  refine ⟨he, ?_⟩
  rw [acceptsNode_of_eq he]
  simp

/-- Witness for C4: name "Abc 12 (x)" is skipped even when the lookup fails
outright, showing the lookup is never consulted. -/
theorem c4_witness :
    processNode failLookup restNode =
      .ok (restNode, [.warnSkipRest "Abc 12 (x)"]) ∧
    acceptsNode failLookup restNode = false :=
  @c4_nonempty_remainder_rejected restNode 1
    ("Abc".toList, "12".toList, " (x)".toList)
    (by decide) (by decide) (by decide) (by decide) failLookup

/-! ## Claim C8 (functional_correctness, corrected)

The scan loop of lines 123-132 overwrites name_tag / ele_tag / natural_tag on
every matching child, so the binding that survives is the LAST tag with the
key, not the first as the spec states. -/

/-- Claim C8 as stated is false: with two name tags, first "Abc 100" and last
"nodigits", the program classifies the LAST value and leaves the node
unchanged, while the first value (shown on the node carrying only it) would
have been accepted and rewritten. -/
theorem c8_counterexample :
    firstIdxOf "name" dupNameNode.tags = some 1 ∧
    (scanTags dupNameNode.tags).1 = some 2 ∧
    dupNameNode.tags.get? 1 ≠ dupNameNode.tags.get? 2 ∧
    processNode (okLookup ⟨⟨100, 1⟩, "100"⟩) dupNameNode = .ok (dupNameNode, []) ∧
    acceptsNode (okLookup ⟨⟨100, 1⟩, "100"⟩) singleNameNode = true :=
  ⟨by decide, by decide, by decide, rfl, by decide⟩

/-- Claim C8 (amended): duplicate name / ele / natural keys are resolved by
LAST-seen semantics: the scan selects, for each of the three keys, precisely
the last tag in document order carrying it. -/
theorem c8_last_seen (tags : List Tag) :
    scanTags tags =
      (lastIdxOf "name" tags, lastIdxOf "ele" tags, lastIdxOf "natural" tags) :=
  scanTags_eq_lastIdx tags

end OsmTools

namespace OsmTools

/-! ## Claim C1 (functional_correctness, confirmed)

Lines 166-172: rejection fires on strictly-greater-than 20 (DTM vs claimed)
and strictly-greater-than 10 (claimed vs existing), so the boundaries 20 and
10 are accepted, 21 and 11 rejected. -/

/-- Claim C1: for a candidate node classified with empty remainder, with a
known DTM elevation and an existing ele tag that, when present, parses as a
number (exOpt is that parsed value, none when the tag is absent or empty),
the correction is accepted if and only if the absolute difference between the
DTM and claimed elevations is at most 20 and, for a present existing value,
the absolute difference between claimed and existing is at most 10. -/
theorem c1_acceptance {lookup : Lookup} {node : OsmNode} {nameIdx : Nat}
    {m : List Char × List Char × List Char} {claimed : PyFloat} {z : PyNum}
    {exOpt : Option PyFloat}
    (h1 : naturalOk node = true) (h2 : (scanTags node.tags).1 = some nameIdx)
    (h3 : classify (tagValAt node.tags nameIdx).toList = some m)
    (h4 : m.2.2 = [])
    (h5 : lookup (node.lon, node.lat) = .ok (some z))
    (h6 : parseFloat (String.mk m.2.1) = some claimed)
    (hz : 0 < z.val.den)
    (hex : (existingEleStr node = "" ∧ exOpt = none) ∨
      (∃ ex, parseFloat (existingEleStr node) = some ex ∧ exOpt = some ex)) :
    acceptsNode lookup node = true ↔
      (|z.val.toRat - claimed.toRat| ≤ 20 ∧
        ∀ ex, exOpt = some ex → |claimed.toRat - ex.toRat| ≤ 10) := by
  have hcd : 0 < claimed.den := parseFloat_den_pos h6
  have c20 : ((20 : Int) : ℚ) = (20 : ℚ) := by norm_num
  have c10 : ((10 : Int) : ℚ) = (10 : ℚ) := by norm_num
  have hb20T := gtInt_fabs_sub_iff hz hcd 20
  have hb20F := gtInt_fabs_sub_false_iff hz hcd 20
  rw [c20] at hb20T hb20F
  cases h7 : ((z.val.sub claimed).fabs).gtInt 20 with
  | true =>
    rw [acceptsNode_of_eq (processNode_dtm_far h1 h2 h3 h4 h5 h6 h7)]
    constructor
    · intro hfalse
      exact absurd hfalse (by simp)
    · rintro ⟨hle, -⟩
      exact absurd (hb20T.mp h7) (not_lt.mpr hle)
  | false =>
    have hle20 : |z.val.toRat - claimed.toRat| ≤ 20 := hb20F.mp h7
    rcases hex with ⟨hex1, hexo⟩ | ⟨ex, hexp, hexo⟩
    · subst hexo
      rw [acceptsNode_of_eq (processNode_accept h1 h2 h3 h4 h5 h6 h7 (Or.inl hex1))]
      constructor
      · intro _
        exact ⟨hle20, fun ex he => Option.noConfusion he⟩
      · intro _
        rw [decide_eq_true_eq]
        exact rewriteNode_ne
    · subst hexo
      have hexd : 0 < ex.den := parseFloat_den_pos hexp
      have hb10T := gtInt_fabs_sub_iff hcd hexd 10
      have hb10F := gtInt_fabs_sub_false_iff hcd hexd 10
      rw [c10] at hb10T hb10F
      cases h10 : ((claimed.sub ex).fabs).gtInt 10 with
      | true =>
        rw [acceptsNode_of_eq (processNode_ex_far h1 h2 h3 h4 h5 h6 h7 hexp h10)]
        constructor
        · intro hfalse
          exact absurd hfalse (by simp)
        · rintro ⟨-, hall⟩
          exact absurd (hb10T.mp h10) (not_lt.mpr (hall ex rfl))
      | false =>
        rw [acceptsNode_of_eq
          (processNode_accept h1 h2 h3 h4 h5 h6 h7 (Or.inr ⟨ex, hexp, h10⟩))]
        constructor
        · intro _
          refine ⟨hle20, fun ex2 he2 => ?_⟩
          injection he2 with he2
          subst he2
          exact hb10F.mp h10
        · intro _
          rw [decide_eq_true_eq]
          exact rewriteNode_ne

end OsmTools

namespace OsmTools

/-- Witness for C1 at the exact boundaries: DTM difference exactly 20 with
existing difference exactly 10 accepted; DTM difference 21 rejected; existing
difference 11 rejected. -/
theorem c1_witness :
    acceptsNode (okLookup ⟨⟨120, 1⟩, "120"⟩) boundaryNode = true ∧
    acceptsNode (okLookup ⟨⟨121, 1⟩, "121"⟩) boundaryNode = false ∧
    acceptsNode (okLookup ⟨⟨120, 1⟩, "120"⟩) boundaryNodeC = false := by
  have h1 := @c1_acceptance (okLookup ⟨⟨120, 1⟩, "120"⟩) boundaryNode 1
    ("Abc".toList, "100".toList, []) ⟨100, 1⟩ ⟨⟨120, 1⟩, "120"⟩ (some ⟨90, 1⟩)
    (by decide) (by decide) (by decide) (by decide) rfl (by decide) (by decide)
    (Or.inr ⟨⟨90, 1⟩, by decide, rfl⟩)
  have h2 := @c1_acceptance (okLookup ⟨⟨121, 1⟩, "121"⟩) boundaryNode 1
    ("Abc".toList, "100".toList, []) ⟨100, 1⟩ ⟨⟨121, 1⟩, "121"⟩ (some ⟨90, 1⟩)
    (by decide) (by decide) (by decide) (by decide) rfl (by decide) (by decide)
    (Or.inr ⟨⟨90, 1⟩, by decide, rfl⟩)
  have h3 := @c1_acceptance (okLookup ⟨⟨120, 1⟩, "120"⟩) boundaryNodeC 1
    ("Abc".toList, "100".toList, []) ⟨100, 1⟩ ⟨⟨120, 1⟩, "120"⟩ (some ⟨89, 1⟩)
    (by decide) (by decide) (by decide) (by decide) rfl (by decide) (by decide)
    (Or.inr ⟨⟨89, 1⟩, by decide, rfl⟩)
  refine ⟨?_, ?_, ?_⟩
  · refine h1.mpr ⟨by norm_num [PyFloat.toRat], fun ex he => ?_⟩
    injection he with he
    subst he
    norm_num [PyFloat.toRat]
  · cases hb : acceptsNode (okLookup ⟨⟨121, 1⟩, "121"⟩) boundaryNode with
    | false => rfl
    | true =>
      have hr := h2.mp hb
      have hco := hr.1
      norm_num [PyFloat.toRat] at hco
  · cases hb : acceptsNode (okLookup ⟨⟨120, 1⟩, "120"⟩) boundaryNodeC with
    | false => rfl
    | true =>
      have hr := h3.mp hb
      have hco := hr.2 ⟨89, 1⟩ rfl
      norm_num [PyFloat.toRat] at hco

end OsmTools

namespace OsmTools

lemma processNode_not_candidate {lookup : Lookup} {node : OsmNode}
    (hc : isCandidate node = false) :
    processNode lookup node = .ok (node, []) := by
  cases h1 : naturalOk node with
  | false => exact processNode_not_natural h1
  | true =>
    unfold isCandidate at hc
    rw [h1] at hc
    simp only [Bool.true_and] at hc
    cases h2 : (scanTags node.tags).1 with
    | none => exact processNode_no_name h1 h2
    | some i =>
      simp only [h2] at hc
      have h3 : classify (tagValAt node.tags i).toList = none := by
        cases hcl : classify (tagValAt node.tags i).toList with
        | none => rfl
        | some mm =>
          rw [hcl] at hc
          exact absurd hc (by simp)
      exact processNode_no_match h1 h2 h3

/-! ## Claim C7 (frame_effect, confirmed) -/

/-- Claim C7: no tag is ever removed (the key sequence is preserved, with the
four audit keys appended on acceptance, so an existing ele tag stays in
place); every original tag keeps its key, and its value too except the
selected name tag; a rejected (logged) node and every non-candidate pass
through with tags unmodified; and the run is local: output node j is exactly
the processing of input node j, no other node being touched. -/
theorem c7_frame {lookup : Lookup} {node r : OsmNode} {logs : List LogEvent}
    (h : processNode lookup node = .ok (r, logs)) :
    (r.tags.map Tag.k = node.tags.map Tag.k ∨
      r.tags.map Tag.k = node.tags.map Tag.k ++
        ["ele", "NOTE", "name:original", "ele:kartverket-dmt"]) ∧
    (∀ j t, node.tags.get? j = some t → ∃ u, r.tags.get? j = some u ∧
      u.k = t.k ∧ (u.v = t.v ∨ (scanTags node.tags).1 = some j)) ∧
    (logs ≠ [] → r = node) ∧
    (isCandidate node = false → r = node ∧ logs = []) ∧
    (∀ nodes outs logsAll, runMain lookup nodes = .ok (outs, logsAll) →
      outs.length = nodes.length ∧
      ∀ j, j < nodes.length → ∃ nj oj lg, nodes.get? j = some nj ∧
        outs.get? j = some oj ∧ processNode lookup nj = .ok (oj, lg)) := by
  have hc4 : isCandidate node = false → r = node ∧ logs = [] := by
    intro hcand
    have he := @processNode_not_candidate lookup node hcand
    rw [he] at h
    injection h with h
    simp only [Prod.mk.injEq] at h
    exact ⟨h.1.symm, h.2.symm⟩
  have hloc : ∀ nodes outs logsAll, runMain lookup nodes = .ok (outs, logsAll) →
      outs.length = nodes.length ∧
      ∀ j, j < nodes.length → ∃ nj oj lg, nodes.get? j = some nj ∧
        outs.get? j = some oj ∧ processNode lookup nj = .ok (oj, lg) :=
    fun nodes outs logsAll hh => runMain_ok_nodes hh
  rcases processNode_ok_inv h with he | ⟨hlogs, nameIdx, m, z, h1, h2, h3, h4, h5, hr⟩
  · subst he
    exact ⟨Or.inl rfl, fun j t ht => ⟨t, ht, rfl, Or.inl rfl⟩,
      fun _ => rfl, hc4, hloc⟩
  · subst hr
    refine ⟨Or.inr (rewrite_keys h2), ?_, fun hne => absurd hlogs hne, hc4, hloc⟩
    intro j t ht
    obtain ⟨hjlt, -⟩ := List.get?_eq_some.mp ht
    by_cases hij : j = nameIdx
    · subst hij
      obtain ⟨-, t0, ht0, hk0⟩ := scanTags_name_lt h2
      rw [ht] at ht0
      injection ht0 with ht0
      refine ⟨{ k := "name", v := String.mk m.1 }, rewrite_get?_self hjlt, ?_, Or.inr h2⟩
      rw [← ht0] at hk0
      exact hk0.symm
    · exact ⟨t, by rw [rewrite_get?_lt hjlt hij]; exact ht, rfl, Or.inl rfl⟩

/-! ## Claim C9 (error_handling, confirmed) -/

/-- Claim C9: a transport failure from the DTM lookup on a candidate node is
propagated immediately: the node processing raises, and any run that reaches
the node (all earlier nodes having been processed without exception) aborts
with the error, printing no output document. -/
theorem c9_lookup_failure_fatal {lookup : Lookup} {node : OsmNode}
    {nameIdx : Nat} {m : List Char × List Char × List Char}
    (h1 : naturalOk node = true) (h2 : (scanTags node.tags).1 = some nameIdx)
    (h3 : classify (tagValAt node.tags nameIdx).toList = some m)
    (h4 : m.2.2 = [])
    (h5 : lookup (node.lon, node.lat) = .error ()) :
    processNode lookup node = .error .httpError ∧
    ∀ pre post, (∀ q ∈ pre, ∃ res, processNode lookup q = .ok res) →
      runMain lookup (pre ++ node :: post) = .error .httpError := by
  have he := processNode_http h1 h2 h3 h4 h5
  exact ⟨he, fun pre post hpre => runMain_append_error hpre he⟩

/-- Witness for C9: a failing lookup on the Storefjell node aborts the run;
the node after it is never reached and nothing is output. -/
theorem c9_witness :
    processNode failLookup storefjellNode = .error .httpError ∧
    runMain failLookup ([] ++ storefjellNode :: [plainNode]) =
      .error .httpError := by
  have h := @c9_lookup_failure_fatal failLookup storefjellNode 1
    ("Storefjell".toList, "1200".toList, []) (by decide) (by decide) (by decide)
    (by decide) rfl
  exact ⟨h.1, h.2 [] [plainNode] (fun q hq => absurd hq (by simp))⟩

/-! ## Claim C10 (error_handling, confirmed)

Line 170 calls float(existing_ele) whenever existing_ele is nonempty and both
earlier gates passed; a non-numeric value raises ValueError, uncaught. -/

/-- Claim C10: on a candidate node with an empty remainder, a known DTM value
within tolerance of the claim, and a nonempty existing ele tag value that
does not parse as a number, the program raises the parse error instead of
skipping the check or the node, and the whole run aborts. -/
theorem c10_unparsable_existing_aborts {lookup : Lookup} {node : OsmNode}
    {nameIdx : Nat} {m : List Char × List Char × List Char}
    {claimed : PyFloat} {z : PyNum}
    (h1 : naturalOk node = true) (h2 : (scanTags node.tags).1 = some nameIdx)
    (h3 : classify (tagValAt node.tags nameIdx).toList = some m)
    (h4 : m.2.2 = [])
    (h5 : lookup (node.lon, node.lat) = .ok (some z))
    (h6 : parseFloat (String.mk m.2.1) = some claimed)
    (hz : 0 < z.val.den)
    (hdtm : |z.val.toRat - claimed.toRat| ≤ 20)
    (h8 : existingEleStr node ≠ "")
    (h9 : parseFloat (existingEleStr node) = none) :
    processNode lookup node = .error (.valueErrorParse (existingEleStr node)) ∧
    ∀ pre post, (∀ q ∈ pre, ∃ res, processNode lookup q = .ok res) →
      runMain lookup (pre ++ node :: post) =
        .error (.valueErrorParse (existingEleStr node)) := by
  have hcd := parseFloat_den_pos h6
  have c20 : ((20 : Int) : ℚ) = (20 : ℚ) := by norm_num
  have hb := gtInt_fabs_sub_false_iff hz hcd 20
  rw [c20] at hb
  have h7 := hb.mpr hdtm
  have he := processNode_exparse_fail h1 h2 h3 h4 h5 h6 h7 h8 h9
  exact ⟨he, fun pre post hpre => runMain_append_error hpre he⟩

/-- Witness for C10: existing ele "12m" with claimed 100 and DTM 100. -/
theorem c10_witness :
    processNode (okLookup ⟨⟨100, 1⟩, "100"⟩) badEleNode =
      .error (.valueErrorParse "12m") ∧
    runMain (okLookup ⟨⟨100, 1⟩, "100"⟩) ([] ++ badEleNode :: []) =
      .error (.valueErrorParse "12m") := by
  have h := @c10_unparsable_existing_aborts (okLookup ⟨⟨100, 1⟩, "100"⟩)
    badEleNode 2 ("Abc".toList, "100".toList, []) ⟨100, 1⟩ ⟨⟨100, 1⟩, "100"⟩
    (by decide) (by decide) (by decide) (by decide) rfl (by decide) (by decide)
    (by norm_num [PyFloat.toRat]) (by decide) (by decide)
  exact ⟨h.1, h.2 [] [] (fun q hq => absurd hq (by simp))⟩

/-! ## Claim C5 (algebraic_relational, confirmed) -/

/-- Claim C5: for every node rewritten by an accepted correction, the new
name tag value matches neither classifier pattern, and re-running the tool on
its own output leaves every node unchanged (the second pass is a no-op on the
document). -/
theorem c5_idempotent (lookup : Lookup) :
    (∀ node r logs, processNode lookup node = .ok (r, logs) → r ≠ node →
      ∃ nm, nodeName? r = some nm ∧ classify nm.toList = none) ∧
    (∀ nodes outs logs, runMain lookup nodes = .ok (outs, logs) →
      ∃ logs2, runMain lookup outs = .ok (outs, logs2)) := by
  constructor
  · intro node r logs h hne
    exact (@processNode_second_pass lookup lookup node r logs h hne).1
  · intro nodes outs logs h
    exact runMain_second_pass h

end OsmTools

namespace OsmTools

/-! ## Claim C6 (functional_correctness, confirmed) -/

/-- Claim C6: an accepted correction sets the name tag value to name_part and
appends exactly four new tags, in order: ele carrying the claimed elevation
digit string, NOTE = "fixed name with elevation", name:original carrying the
original full name, and ele:kartverket-dmt carrying the DTM elevation as
rendered by str(). -/
theorem c6_rewriter {lookup : Lookup} {node : OsmNode} {nameIdx : Nat}
    {m : List Char × List Char × List Char} {claimed : PyFloat} {z : PyNum}
    (h1 : naturalOk node = true) (h2 : (scanTags node.tags).1 = some nameIdx)
    (h3 : classify (tagValAt node.tags nameIdx).toList = some m)
    (h4 : m.2.2 = [])
    (h5 : lookup (node.lon, node.lat) = .ok (some z))
    (h6 : parseFloat (String.mk m.2.1) = some claimed)
    (h7 : ((z.val.sub claimed).fabs).gtInt 20 = false)
    (h8 : existingEleStr node = "" ∨
      ∃ ex, parseFloat (existingEleStr node) = some ex ∧
        ((claimed.sub ex).fabs).gtInt 10 = false) :
    processNode lookup node =
      .ok (⟨node.lon, node.lat,
        node.tags.set nameIdx (mk_tag_element "name" (String.mk m.1)) ++
          [mk_tag_element "ele" (String.mk m.2.1),
           mk_tag_element "NOTE" "fixed name with elevation",
           mk_tag_element "name:original" (tagValAt node.tags nameIdx),
           mk_tag_element "ele:kartverket-dmt" z.repr]⟩, []) :=
  processNode_accept h1 h2 h3 h4 h5 h6 h7 h8

/-- Witness for C6: name "Storefjell 1200", no existing ele tag, DTM 1195 is
accepted and yields exactly the spec scenario tags. -/
theorem c6_witness :
    processNode (okLookup ⟨⟨1195, 1⟩, "1195"⟩) storefjellNode =
      .ok (storefjellRewritten, []) :=
  @c6_rewriter (okLookup ⟨⟨1195, 1⟩, "1195"⟩) storefjellNode 1
    ("Storefjell".toList, "1200".toList, []) ⟨1200, 1⟩ ⟨⟨1195, 1⟩, "1195"⟩
    (by decide) (by decide) (by decide) (by decide) rfl (by decide) (by decide)
    (Or.inl (by decide))

/-- Witness for C7: on the accepted Storefjell node, the key sequence is the
original keys plus the four appended audit keys. -/
theorem c7_witness :
    storefjellRewritten.tags.map Tag.k = storefjellNode.tags.map Tag.k ∨
    storefjellRewritten.tags.map Tag.k = storefjellNode.tags.map Tag.k ++
      ["ele", "NOTE", "name:original", "ele:kartverket-dmt"] :=
  (c7_frame (show processNode (okLookup ⟨⟨1195, 1⟩, "1195"⟩) storefjellNode =
    .ok (storefjellRewritten, []) from rfl)).1

/-- Witness for C5: a second run over the corrected Storefjell output leaves
it unchanged. -/
theorem c5_witness :
    ∃ logs2, runMain (okLookup ⟨⟨1195, 1⟩, "1195"⟩) [storefjellRewritten] =
      .ok ([storefjellRewritten], logs2) :=
  (c5_idempotent (okLookup ⟨⟨1195, 1⟩, "1195"⟩)).2 [storefjellNode]
    [storefjellRewritten] [] rfl

end OsmTools
